import Mathlib

/-!
Verification of the testctx harness (dagger/testctx).

The development shallowly embeds `src/testctx.go` (the primary implementation)
and `src/middleware.go`.  Test/benchmark execution is modelled as a trace
semantics: a `World` carries the event trace, a fresh-id counter for derived
contexts, and the host runner's per-unit cleanup registrations.  A host unit is
identified by its hierarchical name (the string `testing.T.Name` would report);
`t.Run(name, body)` spawns the child unit `parent ++ "/" ++ name`, runs the
body, then runs the child's cleanups in reverse registration order — the
behaviour of the host runner that the harness relies on (spec section 4.1).

Contexts are embedded as the explicit derivation chain the spec's design notes
describe: `context.Background()`, `context.WithCancel`, `context.WithTimeout`
and `context.WithValue` nodes, each cancelable node carrying the fresh id of
its cancel function.  Cancelling is the trace event `Event.cancelEv id`.

Middleware is a function from run function to run function in the source.  A
Lean structure cannot store such functions in the wrapper (the wrapper type
would occur negatively in itself), so the middleware *stored in a wrapper* are
first-order codes (`MW`) and `interp` maps each code to the function it
denotes, translated line by line from the source: `MW.probe i` is the
order-recording probe middleware the spec's section 8 property quantifies
over, `MW.withTimeout`/`MW.withParallel` come from `src/middleware.go`, and
`MW.setCtx`/`MW.withValue` are middleware that replace or extend the context
handed to `next` (the "middleware may swap the context" cases).
The composition of a chain (`wrapWithMiddleware`) is translated from the
source's reverse loop, never from the code of an individual middleware.

The Go `Run` returns the host's aggregate success bool; pass/fail bookkeeping
is the host's and is not modelled — the claims below are about traces, data
flow and aliasing, none about the returned bool.
-/

namespace Testctx

/-- Embedded `context.Context`: the explicit derivation chain.  `cancelC p id`
is the context returned by `context.WithCancel(p)` whose cancel function has
the fresh id `id`; `timeoutC p d id` is `context.WithTimeout(p, d)`;
`valueC p k v` is `context.WithValue(p, k, v)`. -/
inductive Ctx : Type
  | background : Ctx
  | cancelC (parent : Ctx) (id : Nat) : Ctx
  | timeoutC (parent : Ctx) (d : Nat) (id : Nat) : Ctx
  | valueC (parent : Ctx) (k v : Nat) : Ctx
deriving DecidableEq, Repr

/-- `Ctx.inChain a c` holds when `a` occurs in `c`'s parent chain (including
`c` itself), i.e. `c` is derived from `a`. -/
def Ctx.inChain (a : Ctx) : Ctx → Bool
  | .background => a == .background
  | .cancelC p id => a == .cancelC p id || Ctx.inChain a p
  | .timeoutC p d id => a == .timeoutC p d id || Ctx.inChain a p
  | .valueC p k v => a == .valueC p k v || Ctx.inChain a p

/-- A context whose top node carries a cancel function (what
`context.WithCancel` / `context.WithTimeout` return). -/
def Ctx.isCancelable : Ctx → Bool
  | .cancelC _ _ => true
  | .timeoutC _ _ _ => true
  | _ => false

/-- Calls delegated to the underlying `testing.T`/`testing.B`. -/
inductive TbK : Type
  | errK | errfK | fatalK | fatalfK | logK | logfK | skipK | skipfK
deriving DecidableEq, Repr

/-- Calls mirrored to an attached `Logger` (its interface has exactly
`Log`, `Logf`, `Error`, `Errorf`). -/
inductive LgK : Type
  | lErr | lErrf | lLog | lLogf
deriving DecidableEq, Repr

/-- Observable events of an execution. -/
inductive Event : Type
  | unitStart (name : String)
  | unitEnd (name : String)
  | cancelEv (id : Nat)
  | beforeE (i : Nat)
  | afterE (i : Nat)
  | bodyMark (tag : String)
  | obs (b : Bool)
  | parallelEv
  | tbCall (k : TbK) (msg : String)
  | logCall (lid : Nat) (k : LgK) (msg : String)
deriving DecidableEq, Repr

/-- Execution state: the trace so far, the fresh-id supply for derived
contexts, and the host runner's cleanup registrations
(unit name, id of the context cancel registered there), in
registration order. -/
structure World : Type where
  trace : List Event := []
  nextId : Nat := 0
  cleanups : List (String × Nat) := []
deriving DecidableEq, Repr

/-- Append one event to the trace. -/
def emit (e : Event) (s : World) : World :=
  { s with trace := s.trace ++ [e] }

/-- Append a list of events to the trace, in order. -/
def emitAll (es : List Event) (s : World) : World :=
  es.foldl (fun st e => emit e st) s

/-- First-order middleware codes stored in a wrapper; `interp` below gives
each one its meaning as a function on run functions. -/
inductive MW : Type
  | probe (i : Nat)
  | withTimeout (d : Nat)
  | withParallel
  | setCtx (c : Ctx)
  | withValue (k v : Nat)
deriving DecidableEq, Repr

/-- The wrapper `W[T]` of `src/testctx.go`: the bound host unit (identified by
its name), the context, the middleware list and the optional logger
(identified by an id; the logger interface itself lives outside the model).
The embedded `testing.TB` field of the Go struct exists only to satisfy the
`testing.TB` interface and is always set together with `tb`, so it is not
duplicated here. -/
structure W : Type where
  tb : String
  ctx : Ctx
  middleware : List MW := []
  logger : Option Nat := none
deriving DecidableEq, Repr

/-- `RunFunc[T]`: a test function taking a context and a wrapper; its effect
on the world is explicit. -/
abbrev RunFunc : Type := Ctx → W → World → World

/-- `Middleware[T]`: a function that wraps a run function. -/
abbrev Middleware : Type := RunFunc → RunFunc

/-- `clone` of `src/testctx.go`: shallow copy with all fields preserved. -/
def W.clone (w : W) : W :=
  { tb := w.tb, ctx := w.ctx, middleware := w.middleware, logger := w.logger }

/-- `WithContext` of `src/testctx.go`: clone, then set the context to the
given one. -/
def W.WithContext (w : W) (c : Ctx) : W :=
  { w.clone with ctx := c }

/-- `Context` of `src/testctx.go`: the current context. -/
def W.Context (w : W) : Ctx := w.ctx

/-- `Using` of `src/testctx.go` with Go's `append` abstracted to list
concatenation (the value-level reading of the slice; the backing-array
aliasing of `append` is modelled separately in `SliceModel` below). -/
def W.Using (w : W) (ms : List MW) : W :=
  { w.clone with middleware := w.middleware ++ ms }

/-- `WithLogger` of `src/testctx.go`. -/
def W.WithLogger (w : W) (lid : Nat) : W :=
  { w.clone with logger := some lid }

/-- Meaning of each middleware code as a `Middleware`, each translated from
the corresponding source middleware:
* `probe i` records `beforeE i`, delegates, records `afterE i` — the
  call-order probe of spec section 8;
* `withTimeout d` is `WithTimeout` of `src/middleware.go` in the panic-free
  semantics (the deferred `cancel` runs after `next` returns; the panic-aware
  version is `WithTimeoutP` below);
* `withParallel` is `WithParallel` of `src/middleware.go`
  (`t.tb.Parallel()` then `next`);
* `setCtx c` hands `next` the replacement context `c`;
* `withValue k v` hands `next` `context.WithValue(ctx, k, v)`. -/
def interp : MW → Middleware
  | .probe i => fun next ctx t s =>
      emit (Event.afterE i) (next ctx t (emit (Event.beforeE i) s))
  | .withTimeout d => fun next ctx t s =>
      let id := s.nextId
      let s0 : World := { s with nextId := id + 1 }
      emit (Event.cancelEv id) (next (Ctx.timeoutC ctx d id) t s0)
  | .withParallel => fun next ctx t s =>
      next ctx t (emit Event.parallelEv s)
  | .setCtx c => fun next _ctx t s =>
      next c t s
  | .withValue k v => fun next ctx t s =>
      next (Ctx.valueC ctx k v) t s

/-- `wrapWithMiddleware` of `src/testctx.go`: first wrap `fn` to re-sync the
wrapper's context with whatever context it is handed, then walk the
middleware in reverse order so the last middleware added becomes the
innermost wrapper. -/
def W.wrapWithMiddleware (w : W) (fn : RunFunc) : RunFunc :=
  let wrapped : RunFunc := fun ctx t => fn ctx (t.WithContext ctx)
  w.middleware.foldr (fun m acc => interp m acc) wrapped

/-- The chain composition as a standalone function of the middleware list
(definitionally `W.wrapWithMiddleware`). -/
def chainWrap (ms : List MW) (fn : RunFunc) : RunFunc :=
  ms.foldr (fun m acc => interp m acc) (fun ctx t => fn ctx (t.WithContext ctx))

/-- Host runner behaviour for one unit `u` (spec section 4.1): the unit
starts, its body runs, its registered cleanups run in reverse registration
order (each registered cleanup here is a context cancel), the unit ends. -/
def runUnit (u : String) (body : World → World) (s : World) : World :=
  let s1 := emit (Event.unitStart u) s
  let s2 := body s1
  let mine := (s2.cleanups.filter (fun c => c.1 == u)).reverse
  let s3 := mine.foldl (fun st c => emit (Event.cancelEv c.2) st)
      { s2 with cleanups := s2.cleanups.filter (fun c => !(c.1 == u)) }
  emit (Event.unitEnd u) s3

/-- The host's `t.Run(name, body)`: spawn the child unit named
`parent ++ "/" ++ name` and run `body` on it as a nested execution. -/
def tbRun (tb name : String) (body : String → World → World) (s : World) : World :=
  runUnit (tb ++ "/" ++ name) (body (tb ++ "/" ++ name)) s

/-- `Run` of `src/testctx.go`: delegate to the host unit's `Run`; on the
spawned child unit, clone the wrapper, re-bind it to the child unit, and
invoke the middleware-wrapped function with the child wrapper's context and
the child wrapper.  (The host's aggregate success bool is not modelled.) -/
def W.Run (w : W) (name : String) (fn : RunFunc) : World → World :=
  tbRun w.tb name (fun childTb s =>
    let newW : W := { w.clone with tb := childTb }
    (w.wrapWithMiddleware fn) newW.ctx newW s)

/-- `New` of `src/testctx.go`:
`ctx, cancel := context.WithCancel(context.Background())`;
`t.Cleanup(cancel)`; store the unit, the context and the middleware.
Note the source takes no base-context parameter: the derivation always
starts from `context.Background()`. -/
def New (tb : String) (middleware : List MW) (s : World) : W × World :=
  let id := s.nextId
  ({ tb := tb, ctx := Ctx.cancelC Ctx.background id, middleware := middleware },
   { s with nextId := id + 1, cleanups := s.cleanups ++ [(tb, id)] })

/-- `Error` of `src/testctx.go`: delegate to the unit, then mirror to the
logger when one is set. -/
def W.Error (w : W) (msg : String) (s : World) : World :=
  let s1 := emit (Event.tbCall TbK.errK msg) s
  match w.logger with
  | some lid => emit (Event.logCall lid LgK.lErr msg) s1
  | none => s1

/-- `Errorf` of `src/testctx.go`: delegate, then mirror. -/
def W.Errorf (w : W) (msg : String) (s : World) : World :=
  let s1 := emit (Event.tbCall TbK.errfK msg) s
  match w.logger with
  | some lid => emit (Event.logCall lid LgK.lErrf msg) s1
  | none => s1

/-- `Fatal` of `src/testctx.go`: mirror to the logger first (the host call
may not return), then delegate. -/
def W.Fatal (w : W) (msg : String) (s : World) : World :=
  let s1 :=
    match w.logger with
    | some lid => emit (Event.logCall lid LgK.lErr msg) s
    | none => s
  emit (Event.tbCall TbK.fatalK msg) s1

/-- `Fatalf` of `src/testctx.go`: mirror first, then delegate. -/
def W.Fatalf (w : W) (msg : String) (s : World) : World :=
  let s1 :=
    match w.logger with
    | some lid => emit (Event.logCall lid LgK.lErrf msg) s
    | none => s
  emit (Event.tbCall TbK.fatalfK msg) s1

/-- `Log` of `src/testctx.go`: delegate, then mirror. -/
def W.Log (w : W) (msg : String) (s : World) : World :=
  let s1 := emit (Event.tbCall TbK.logK msg) s
  match w.logger with
  | some lid => emit (Event.logCall lid LgK.lLog msg) s1
  | none => s1

/-- `Logf` of `src/testctx.go`: delegate, then mirror. -/
def W.Logf (w : W) (msg : String) (s : World) : World :=
  let s1 := emit (Event.tbCall TbK.logfK msg) s
  match w.logger with
  | some lid => emit (Event.logCall lid LgK.lLogf msg) s1
  | none => s1

/-- `Skip` of `src/testctx.go`: mirror first (the host call does not
return), then delegate. -/
def W.Skip (w : W) (msg : String) (s : World) : World :=
  let s1 :=
    match w.logger with
    | some lid => emit (Event.logCall lid LgK.lLog msg) s
    | none => s
  emit (Event.tbCall TbK.skipK msg) s1

/-- `Skipf` of `src/testctx.go`: mirror first, then delegate. -/
def W.Skipf (w : W) (msg : String) (s : World) : World :=
  let s1 :=
    match w.logger with
    | some lid => emit (Event.logCall lid LgK.lLogf msg) s
    | none => s
  emit (Event.tbCall TbK.skipfK msg) s1

/-- A reflected method of a suite container: its name and the reflect-level
shape of its signature (`NumIn` counts the receiver; `in1IsCtx` is
`In(1)` assignable to `context.Context`; `in2IsW` is `In(2)` assignable
to `*W[T]`), together with the run function the method denotes when it
does match. -/
structure Method : Type where
  name : String
  numIn : Nat
  in1IsCtx : Bool
  in2IsW : Bool
  body : RunFunc

/-- A container: its methods, in the stable order reflection reports them. -/
abbrev Container : Type := List Method

/-- The signature-and-name check of `runMethods` in `src/testctx.go`, as one
predicate: the name has the prefix and the signature beyond the receiver is
exactly `(context.Context, *W[T])`. -/
def methodOK (pre : String) (m : Method) : Bool :=
  pre.isPrefixOf m.name && (m.numIn == 3 && (m.in1IsCtx && m.in2IsW))

/-- `runMethods` of `src/testctx.go`: wrap the whole dispatch loop with the
wrapper's middleware chain; inside, for each container and each method,
skip it unless the name has the prefix and the signature matches, and
otherwise run it as a sub-unit named after the method via `t.Run`.  The two
`continue` statements of the source are the two `if` fall-throughs. -/
def W.runMethods (w : W) (containers : List Container) (pre : String) :
    World → World := fun s =>
  let wrapped := w.wrapWithMiddleware (fun _ctx t st =>
    containers.foldl (fun st c =>
      c.foldl (fun st m =>
        if pre.isPrefixOf m.name then
          if m.numIn == 3 && (m.in1IsCtx && m.in2IsW) then
            t.Run m.name m.body st
          else st
        else st) st) st)
  wrapped w.ctx w s

/-- `RunTests` of `src/testctx.go`. -/
def W.RunTests (w : W) (containers : List Container) : World → World :=
  w.runMethods containers "Test"

/-- `RunBenchmarks` of `src/testctx.go`. -/
def W.RunBenchmarks (w : W) (containers : List Container) : World → World :=
  w.runMethods containers "Benchmark"

/-- A body that only records that it ran. -/
def markBody (tag : String) : RunFunc := fun _ctx _t s =>
  emit (Event.bodyMark tag) s

/-- A body that records whether the wrapper it receives is bound to the very
context it receives (`t.Context() == ctx`). -/
def spyBody : RunFunc := fun ctx t s =>
  emit (Event.obs (decide (t.Context = ctx))) s

/-- A concrete wrapper with a single probe middleware, for the dispatch
counting scenario. -/
def w10 : W :=
  { tb := "t", ctx := Ctx.background, middleware := [MW.probe 0] }

/-- A concrete suite container: `TestA(ctx, w)` and `TestB(ctx, w)` match
the `Test` prefix and the `(context, Wrapper)` signature; `TestHelper()`
has the prefix but not the signature. -/
def cont10 : Container :=
  [{ name := "TestA", numIn := 3, in1IsCtx := true, in2IsW := true,
     body := markBody "TestA" },
   { name := "TestB", numIn := 3, in1IsCtx := true, in2IsW := true,
     body := markBody "TestB" },
   { name := "TestHelper", numIn := 1, in1IsCtx := false, in2IsW := false,
     body := markBody "TestHelper" }]

/-! ### Panic-aware semantics for the timeout middleware

`src/middleware.go`'s `WithTimeout` releases the derived context's cancel
with `defer cancel()`.  To reason about panic exit paths the run-function
type is extended with a panic flag: `true` means the function is unwinding a
panic.  Go's `defer` runs the deferred call both on normal return and during
panic unwinding, so the translation of `defer cancel(); next(ctx, t)` runs
`next`, then emits the cancel whatever the flag says, and propagates the
flag. -/

/-- A run function that can signal a propagating panic. -/
abbrev RunFuncP : Type := Ctx → W → World → World × Bool

/-- `WithTimeout` of `src/middleware.go` under the panic-aware semantics:
`ctx, cancel := context.WithTimeout(ctx, d); defer cancel(); next(ctx, t)`. -/
def WithTimeoutP (d : Nat) (next : RunFuncP) : RunFuncP := fun ctx t s =>
  let id := s.nextId
  let s0 : World := { s with nextId := id + 1 }
  let r := next (Ctx.timeoutC ctx d id) t s0
  (emit (Event.cancelEv id) r.1, r.2)

/-! Concrete scenario for the context-lifetime question: a root wrapper from
`New` on unit `"r"`, whose unit runs one subtest `"c"` through `Run`, the
whole root unit executed to completion. -/

/-- The root wrapper and the world after `New`. -/
def rootPair : W × World := New "r" [] {}

/-- Full execution of the root unit: its body runs the subtest, then the
root's cleanups (the cancel registered by `New`) run. -/
def c4scene : World :=
  runUnit "r" (fun st => rootPair.1.Run "c" (markBody "b") st) rootPair.2

/-- A concrete receiver for the `WithContext` question: its context is the
cancelable context `New` would have given it. -/
def w7 : W := { tb := "t", ctx := Ctx.cancelC Ctx.background 0 }

end Testctx

namespace Testctx.SliceModel

/-!
### Go slice semantics for the middleware list

`Using` in `src/testctx.go` is
`clone.middleware = append(clone.middleware[:], m...)`.
A Go slice is a view `(array, length, capacity)` into a backing array, and
`append` writes into the shared backing array in place whenever the spare
capacity suffices (reallocating only otherwise); `s[:]` is a full reslice of
the same array, not a copy.  The value-level model above reads a slice as the
list of its visible elements; this model keeps the backing arrays explicit to
settle the aliasing question.  Slice offsets are omitted: every slice the
harness creates starts at offset 0. -/

/-- A Go slice header over `MW`: backing array id, length, capacity. -/
structure GoSlice : Type where
  arrId : Nat
  len : Nat
  cap : Nat
deriving DecidableEq, Repr

/-- The backing-array store; `arrs[id]` is the full allocated array (its
length is the allocation's capacity). -/
structure SHeap : Type where
  arrs : List (List MW)
deriving DecidableEq, Repr

/-- The elements a slice makes visible. -/
def SHeap.read (h : SHeap) (s : GoSlice) : List MW :=
  (h.arrs.getD s.arrId []).take s.len

/-- Overwrite `l[i]`, `l[i+1]`, … with the elements of `xs`. -/
def writeAt (l : List MW) (i : Nat) : List MW → List MW
  | [] => l
  | x :: xs => writeAt (l.set i x) (i + 1) xs

/-- Go's `append(s, xs...)`: write in place into the shared backing array
when the capacity suffices (the in-place writes are visible through every
other slice of the same array); otherwise allocate a fresh array — the
doubling growth of the gc toolchain for small slices — and copy.  Padding of
the fresh allocation is the zero value and is never visible through a
length-bounded read. -/
def goAppend (h : SHeap) (s : GoSlice) (xs : List MW) : SHeap × GoSlice :=
  if s.len + xs.length ≤ s.cap then
    let arr := h.arrs.getD s.arrId []
    ({ arrs := h.arrs.set s.arrId (writeAt arr s.len xs) },
     { s with len := s.len + xs.length })
  else
    let newcap := max (s.len + xs.length) (2 * s.cap)
    let content := (h.arrs.getD s.arrId []).take s.len ++ xs
    let arr := content ++ List.replicate (newcap - content.length) (MW.probe 0)
    ({ arrs := h.arrs ++ [arr] },
     { arrId := h.arrs.length, len := s.len + xs.length, cap := newcap })

/-- The wrapper with its middleware slice kept at the slice level. -/
structure WS : Type where
  tb : String
  ctx : Ctx
  middleware : GoSlice
  logger : Option Nat := none
deriving DecidableEq, Repr

/-- `clone` at the slice level: a shallow copy — the slice header is copied,
the backing array is shared. -/
def WS.clone (w : WS) : WS :=
  { tb := w.tb, ctx := w.ctx, middleware := w.middleware, logger := w.logger }

/-- `Using` of `src/testctx.go` at the slice level:
`clone := w.clone(); clone.middleware = append(clone.middleware[:], m...)`
(`clone.middleware[:]` is a full reslice — same array, length and
capacity). -/
def WS.Using (w : WS) (h : SHeap) (ms : List MW) : SHeap × WS :=
  let c := w.clone
  let r := goAppend h c.middleware ms
  (r.1, { c with middleware := r.2 })

/-! Concrete scenario for the aliasing question.  Go passes a caller-made
slice through a variadic `...` argument unchanged (language guarantee), so a
wrapper whose middleware slice has spare capacity is reachable, e.g.
`mws := make([]Middleware, 1, 2); mws[0] = m0; w := New(t, mws...)`.
From that single parent `w`, construct two siblings with `Using`. -/

/-- Backing store: one array of capacity 2 holding `probe 0` and a spare
slot. -/
def h0 : SHeap := { arrs := [[MW.probe 0, MW.probe 0]] }

/-- The parent wrapper: middleware slice of length 1, capacity 2, over the
array of `h0`. -/
def wBase : WS :=
  { tb := "t", ctx := Ctx.background,
    middleware := { arrId := 0, len := 1, cap := 2 } }

/-- Heap after the first sibling's `Using`. -/
def heap1 : SHeap := (wBase.Using h0 [MW.probe 1]).1

/-- First sibling: `a := w.Using(probe 1)`. -/
def sibA : WS := (wBase.Using h0 [MW.probe 1]).2

/-- Heap after the second sibling's `Using` (from the same parent). -/
def heap2 : SHeap := (wBase.Using heap1 [MW.probe 2]).1

/-- Second sibling: `b := w.Using(probe 2)`. -/
def sibB : WS := (wBase.Using heap1 [MW.probe 2]).2

end Testctx.SliceModel

namespace Testctx

/-! ### Helper lemmas about the trace semantics -/

@[simp] lemma emit_trace (e : Event) (s : World) :
    (emit e s).trace = s.trace ++ [e] := rfl

@[simp] lemma emit_nextId (e : Event) (s : World) :
    (emit e s).nextId = s.nextId := rfl

@[simp] lemma emit_cleanups (e : Event) (s : World) :
    (emit e s).cleanups = s.cleanups := rfl

@[simp] lemma emitAll_nil (s : World) : emitAll [] s = s := rfl

lemma emitAll_cons (e : Event) (es : List Event) (s : World) :
    emitAll (e :: es) s = emitAll es (emit e s) := rfl

lemma emitAll_append (es fs : List Event) (s : World) :
    emitAll (es ++ fs) s = emitAll fs (emitAll es s) := by
  simp [emitAll, List.foldl_append]

@[simp] lemma emitAll_trace (es : List Event) (s : World) :
    (emitAll es s).trace = s.trace ++ es := by
  induction es generalizing s with
  | nil => simp
  | cons e es ih => simp [emitAll_cons, ih]

@[simp] lemma emitAll_nextId (es : List Event) (s : World) :
    (emitAll es s).nextId = s.nextId := by
  induction es generalizing s with
  | nil => rfl
  | cons e es ih => simp [emitAll_cons, ih]

@[simp] lemma emitAll_cleanups (es : List Event) (s : World) :
    (emitAll es s).cleanups = s.cleanups := by
  induction es generalizing s with
  | nil => rfl
  | cons e es ih => simp [emitAll_cons, ih]

lemma foldl_emit_cancels (cs : List (String × Nat)) (s : World) :
    cs.foldl (fun st c => emit (Event.cancelEv c.2) st) s =
      emitAll (cs.map (fun c => Event.cancelEv c.2)) s := by
  induction cs generalizing s with
  | nil => rfl
  | cons c cs ih => simp [emitAll_cons, ih]

lemma mem_emit_trace {e : Event} (x : Event) (s : World) :
    e ∈ (emit x s).trace ↔ e ∈ s.trace ∨ e = x := by
  simp

lemma mem_emitAll_trace {e : Event} (es : List Event) (s : World) :
    e ∈ (emitAll es s).trace ↔ e ∈ s.trace ∨ e ∈ es := by
  simp

/-- `wrapWithMiddleware` is the standalone chain composition. -/
lemma wrapWithMiddleware_eq (w : W) (fn : RunFunc) :
    w.wrapWithMiddleware fn = chainWrap w.middleware fn := rfl

/-- The run of a probe chain around any terminal function: the before events
in registration order, then the terminal function on the context-synced
wrapper, then the after events in reverse order. -/
lemma chainWrap_probes (fn : RunFunc) (ctx : Ctx) (t : W) :
    ∀ (l : List Nat) (s : World),
    chainWrap (l.map MW.probe) fn ctx t s =
      emitAll (l.reverse.map Event.afterE)
        (fn ctx (t.WithContext ctx) (emitAll (l.map Event.beforeE) s)) := by
  intro l
  induction l with
  | nil => intro s; rfl
  | cons i rest ih =>
    intro s
    show interp (MW.probe i) (chainWrap (rest.map MW.probe) fn) ctx t s = _
    simp only [interp]
    rw [show chainWrap (rest.map MW.probe) fn ctx t (emit (Event.beforeE i) s) =
          emitAll (rest.reverse.map Event.afterE)
            (fn ctx (t.WithContext ctx)
              (emitAll (rest.map Event.beforeE) (emit (Event.beforeE i) s)))
        from ih _]
    rw [List.reverse_cons, List.map_append, emitAll_append]
    rfl

/-- A unit whose body registers no cleanups just runs its body between the
start and end events. -/
lemma runUnit_no_cleanups (u : String) (body : World → World) (s : World)
    (h : (body (emit (Event.unitStart u) s)).cleanups = []) :
    runUnit u body s =
      emit (Event.unitEnd u)
        { body (emit (Event.unitStart u) s) with cleanups := [] } := by
  simp only [runUnit, h, List.filter_nil, List.reverse_nil, List.foldl_nil]

/-- Full shape of `Run` over a probe chain and a marking body. -/
lemma run_probe_trace (w : W) (l : List Nat) (hw : w.middleware = l.map MW.probe)
    (name tag : String) (s : World) (hs : s.cleanups = []) :
    (w.Run name (markBody tag) s).trace =
      s.trace ++ [Event.unitStart (w.tb ++ "/" ++ name)]
        ++ l.map Event.beforeE ++ [Event.bodyMark tag]
        ++ l.reverse.map Event.afterE
        ++ [Event.unitEnd (w.tb ++ "/" ++ name)] ∧
    (w.Run name (markBody tag) s).cleanups = [] := by
  have hbody : ∀ st : World,
      (w.wrapWithMiddleware (markBody tag)) w.ctx
          { w.clone with tb := w.tb ++ "/" ++ name } st =
        emitAll (l.reverse.map Event.afterE)
          (emit (Event.bodyMark tag) (emitAll (l.map Event.beforeE) st)) := by
    intro st
    rw [wrapWithMiddleware_eq, hw, chainWrap_probes]
    rfl
  have hrun : w.Run name (markBody tag) s =
      runUnit (w.tb ++ "/" ++ name)
        (fun st => (w.wrapWithMiddleware (markBody tag)) w.ctx
          { w.clone with tb := w.tb ++ "/" ++ name } st) s := rfl
  rw [hrun, runUnit_no_cleanups]
  · constructor
    · simp [hbody, List.append_assoc]
    · rfl
  · simp [hbody, hs]

/-- C1 as a reusable lemma: the part about `wrapWithMiddleware` alone, for an
arbitrary terminal function. -/
lemma wrap_probe_formula (w : W) (l : List Nat)
    (hw : w.middleware = l.map MW.probe) (fn : RunFunc) (ctx : Ctx) (t : W)
    (s : World) :
    (w.wrapWithMiddleware fn) ctx t s =
      emitAll (l.reverse.map Event.afterE)
        (fn ctx (t.WithContext ctx) (emitAll (l.map Event.beforeE) s)) := by
  rw [wrapWithMiddleware_eq, hw, chainWrap_probes]

/-- **C1.** For every middleware list `[m0, ..., mN]` registered on a Wrapper
and every terminal function `fn`, `Run` composes them so that `m0` is the
outermost layer: the composed chain runs code before the delegate call in
registration order, then `fn` on the context-synced wrapper, then code after
the delegate call in reverse registration order; with the order-recording
probes this yields the trace
`before(m0), ..., before(mN), body, after(mN), ..., after(m0)` between the
child unit's start and end. -/
theorem c1_run_middleware_order (w : W) (l : List Nat)
    (hw : w.middleware = l.map MW.probe) :
    (∀ (fn : RunFunc) (ctx : Ctx) (t : W) (s : World),
      (w.wrapWithMiddleware fn) ctx t s =
        emitAll (l.reverse.map Event.afterE)
          (fn ctx (t.WithContext ctx) (emitAll (l.map Event.beforeE) s))) ∧
    (∀ (name tag : String) (s : World), s.cleanups = [] →
      (w.Run name (markBody tag) s).trace =
        s.trace ++ [Event.unitStart (w.tb ++ "/" ++ name)]
          ++ l.map Event.beforeE ++ [Event.bodyMark tag]
          ++ l.reverse.map Event.afterE
          ++ [Event.unitEnd (w.tb ++ "/" ++ name)]) := by
  refine ⟨fun fn ctx t s => wrap_probe_formula w l hw fn ctx t s, ?_⟩
  intro name tag s hs
  exact (run_probe_trace w l hw name tag s hs).1

/-- Witness for C1 at a concrete wrapper with two probes. -/
theorem c1_run_middleware_order_witness :
    (W.Run { tb := "t", ctx := Ctx.background,
             middleware := [MW.probe 0, MW.probe 1] } "c" (markBody "body")
        {}).trace =
      (({} : World)).trace ++ [Event.unitStart ("t" ++ "/" ++ "c")]
        ++ [0, 1].map Event.beforeE ++ [Event.bodyMark "body"]
        ++ [0, 1].reverse.map Event.afterE
        ++ [Event.unitEnd ("t" ++ "/" ++ "c")] :=
  (c1_run_middleware_order
      { tb := "t", ctx := Ctx.background,
        middleware := [MW.probe 0, MW.probe 1] } [0, 1] rfl).2 "c" "body" {} rfl

/-- Through any middleware chain, the spy body only ever observes a wrapper
whose context is the very context it is handed: the innermost layer added by
`wrapWithMiddleware` re-binds the wrapper to the incoming context. -/
lemma chainWrap_spy_obs :
    ∀ (ms : List MW) (b : Bool) (ctx : Ctx) (t : W) (s : World),
    Event.obs b ∈ (chainWrap ms spyBody ctx t s).trace →
      Event.obs b ∈ s.trace ∨ b = true := by
  intro ms
  induction ms with
  | nil =>
    intro b ctx t s h
    have hsync : chainWrap [] spyBody ctx t s =
        emit (Event.obs (decide ((t.WithContext ctx).Context = ctx))) s := rfl
    rw [hsync] at h
    have hc : (t.WithContext ctx).Context = ctx := rfl
    rw [hc, decide_eq_true rfl] at h
    rcases (mem_emit_trace _ s).1 h with h' | h'
    · exact Or.inl h'
    · right
      injection h'
  | cons m rest ih =>
    intro b ctx t s h
    cases m with
    | probe i =>
      have hstep : chainWrap (MW.probe i :: rest) spyBody ctx t s =
          emit (Event.afterE i)
            (chainWrap rest spyBody ctx t (emit (Event.beforeE i) s)) := rfl
      rw [hstep] at h
      rcases (mem_emit_trace _ _).1 h with h' | h'
      · rcases ih b ctx t _ h' with h'' | h''
        · rcases (mem_emit_trace _ _).1 h'' with h3 | h3
          · exact Or.inl h3
          · exact absurd h3 (by simp)
        · exact Or.inr h''
      · exact absurd h' (by simp)
    | withTimeout d =>
      have hstep : chainWrap (MW.withTimeout d :: rest) spyBody ctx t s =
          emit (Event.cancelEv s.nextId)
            (chainWrap rest spyBody (Ctx.timeoutC ctx d s.nextId) t
              { s with nextId := s.nextId + 1 }) := rfl
      rw [hstep] at h
      rcases (mem_emit_trace _ _).1 h with h' | h'
      · rcases ih b _ t _ h' with h'' | h''
        · exact Or.inl h''
        · exact Or.inr h''
      · exact absurd h' (by simp)
    | withParallel =>
      have hstep : chainWrap (MW.withParallel :: rest) spyBody ctx t s =
          chainWrap rest spyBody ctx t (emit Event.parallelEv s) := rfl
      rw [hstep] at h
      rcases ih b ctx t _ h with h' | h'
      · rcases (mem_emit_trace _ _).1 h' with h3 | h3
        · exact Or.inl h3
        · exact absurd h3 (by simp)
      · exact Or.inr h'
    | setCtx c =>
      have hstep : chainWrap (MW.setCtx c :: rest) spyBody ctx t s =
          chainWrap rest spyBody c t s := rfl
      rw [hstep] at h
      exact ih b c t s h
    | withValue k v =>
      have hstep : chainWrap (MW.withValue k v :: rest) spyBody ctx t s =
          chainWrap rest spyBody (Ctx.valueC ctx k v) t s := rfl
      rw [hstep] at h
      exact ih b _ t s h

/-- **C3.** For every `Run(name, fn)` call with any middleware list
(including middleware that replace the context), the function is finally
invoked with a context `ctx` and a child Wrapper `t` such that
`t.Context() = ctx`: the spy body, which records whether the wrapper it
receives is bound to the context it receives, never records `false` —
every observation event the run adds to the trace is `true`. -/
theorem c3_ctx_resync (w : W) (name : String) (s : World) (b : Bool)
    (h : Event.obs b ∈ (w.Run name spyBody s).trace) :
    Event.obs b ∈ s.trace ∨ b = true := by
  have hrun : w.Run name spyBody s =
      runUnit (w.tb ++ "/" ++ name)
        (fun st => (w.wrapWithMiddleware spyBody) w.ctx
          { w.clone with tb := w.tb ++ "/" ++ name } st) s := rfl
  rw [hrun] at h
  simp only [runUnit] at h
  rcases (mem_emit_trace _ _).1 h with h1 | h1
  · rw [foldl_emit_cancels] at h1
    rcases (mem_emitAll_trace _ _).1 h1 with h2 | h2
    · have h3 : Event.obs b ∈
          ((w.wrapWithMiddleware spyBody) w.ctx
            { w.clone with tb := w.tb ++ "/" ++ name }
            (emit (Event.unitStart (w.tb ++ "/" ++ name)) s)).trace := h2
      rw [wrapWithMiddleware_eq] at h3
      rcases chainWrap_spy_obs w.middleware b w.ctx _ _ h3 with h4 | h4
      · rcases (mem_emit_trace _ _).1 h4 with h5 | h5
        · exact Or.inl h5
        · exact absurd h5 (by simp)
      · exact Or.inr h4
    · rcases List.mem_map.1 h2 with ⟨c, _, hc⟩
      exact absurd hc.symm (by simp)
  · exact absurd h1 (by simp)

/-- Witness for C3: a concrete run whose single middleware replaces the
context; the spy still observes a re-synced wrapper, recording `true`. -/
theorem c3_ctx_resync_witness :
    Event.obs true ∈ (({} : World)).trace ∨ true = true :=
  c3_ctx_resync
    { tb := "t", ctx := Ctx.background,
      middleware := [MW.setCtx (Ctx.valueC Ctx.background 1 2)] }
    "c" {} true (by decide)

/-- A cancel registered on a unit runs before that unit's end event:
whenever `(u, id)` is among the cleanups after the body has run, the trace
of the full unit execution contains `cancelEv id` strictly before
`unitEnd u`. -/
lemma runUnit_cancel_mem (u : String) (body : World → World) (s : World)
    (id : Nat)
    (h : (u, id) ∈ (body (emit (Event.unitStart u) s)).cleanups) :
    ∃ pre, (runUnit u body s).trace = pre ++ [Event.unitEnd u] ∧
      Event.cancelEv id ∈ pre := by
  refine ⟨(body (emit (Event.unitStart u) s)).trace ++
      (((body (emit (Event.unitStart u) s)).cleanups.filter
        (fun c => c.1 == u)).reverse.map (fun c => Event.cancelEv c.2)),
    ?_, ?_⟩
  · simp only [runUnit, foldl_emit_cancels, emit_trace, emitAll_trace]
  · refine List.mem_append_right _ ?_
    refine List.mem_map.2 ⟨(u, id), ?_, rfl⟩
    rw [List.mem_reverse]
    exact List.mem_filter.2 ⟨h, by simp⟩

/-- **C4 (amended).** The context carried by a Wrapper created by `New` is
canceled no later than when the unit passed to `New` completes: `New`
derives `cancelC background id` and registers its cancel as a cleanup of
that unit, so in any complete execution of that unit whose body leaves the
registration in place, `cancelEv id` occurs strictly before the unit's end
event.  (Child Wrappers constructed inside `Run` share this same context; it
is canceled when the `New` unit completes, not when the child unit
finishes — see the counterexample.) -/
theorem c4_ctx_canceled_by_root_end (tb : String) (mws : List MW) (s : World)
    (body : World → World)
    (h : (tb, s.nextId) ∈
      (body (emit (Event.unitStart tb) (New tb mws s).2)).cleanups) :
    (New tb mws s).1.ctx = Ctx.cancelC Ctx.background s.nextId ∧
    ∃ pre, (runUnit tb body (New tb mws s).2).trace =
        pre ++ [Event.unitEnd tb] ∧
      Event.cancelEv s.nextId ∈ pre :=
  ⟨rfl, runUnit_cancel_mem tb body (New tb mws s).2 s.nextId h⟩

/-- Witness for C4 (amended): the root unit from `New` with an empty body;
its context's cancel fires before the unit's end. -/
theorem c4_ctx_canceled_by_root_end_witness :
    (New "r" [] {}).1.ctx = Ctx.cancelC Ctx.background (({} : World)).nextId ∧
    ∃ pre, (runUnit "r" (fun st => st) (New "r" [] {}).2).trace =
        pre ++ [Event.unitEnd "r"] ∧
      Event.cancelEv (({} : World)).nextId ∈ pre :=
  c4_ctx_canceled_by_root_end "r" [] {} (fun st => st) (by decide)

/-- **C4 (counterexample).** In the concrete execution `c4scene` — root
wrapper from `New` on unit `"r"`, one child `Run "c"` — the child unit ends
(`unitEnd "r/c"`) before any cancellation of the child wrapper's context
(`cancelEv 0`, its context being the root's `cancelC background 0`): the
context held by the child Wrapper is not canceled by the time the child unit
finishes; it is canceled only at root completion. -/
theorem c4_counterexample :
    c4scene.trace = [Event.unitStart "r", Event.unitStart "r/c",
      Event.bodyMark "b", Event.unitEnd "r/c", Event.cancelEv 0,
      Event.unitEnd "r"] ∧
    (c4scene.trace.takeWhile (fun e => !(e == Event.unitEnd "r/c"))).all
      (fun e => !(e == Event.cancelEv 0)) = true := by
  constructor
  · rfl
  · rfl

/-- **C5 (amended).** `New(unit, initialMiddleware...)` binds the unit,
derives a cancelable context from `context.Background()` — not from a
caller-supplied base context, which the signature does not take — registers
that context's cancellation as a cleanup on the unit, and stores the initial
middleware; no logger is attached. -/
theorem c5_new_contract (tb : String) (mws : List MW) (s : World) :
    New tb mws s =
      ({ tb := tb, ctx := Ctx.cancelC Ctx.background s.nextId,
         middleware := mws, logger := none },
       { s with nextId := s.nextId + 1,
                cleanups := s.cleanups ++ [(tb, s.nextId)] }) := rfl

/-- **C5 (counterexample).** The context derived by `New` hangs directly off
`context.Background()`: for a would-be supplied base context (here
`valueC background 1 2`), the wrapper's context is *not* derived from it —
there is no base-context parameter to honor. -/
theorem c5_counterexample :
    (New "t" [] {}).1.ctx = Ctx.cancelC Ctx.background 0 ∧
    Ctx.inChain (Ctx.valueC Ctx.background 1 2) ((New "t" [] {}).1.ctx)
      = false := by
  constructor
  · rfl
  · rfl

/-- **C7 (amended).** `WithContext(ctx)` returns a new Wrapper bound to the
same unit, the same middleware list and the same logger, and to *exactly*
the given context — no derived-and-cancelable version of it is created —
without mutating the receiver (clone semantics: every receiver field is
left as it was). -/
theorem c7_withcontext_contract (w : W) (c : Ctx) :
    (w.WithContext c).tb = w.tb ∧
    (w.WithContext c).middleware = w.middleware ∧
    (w.WithContext c).logger = w.logger ∧
    (w.WithContext c).Context = c :=
  ⟨rfl, rfl, rfl, rfl⟩

/-- **C7 (counterexample).** For the receiver `w7` (context
`cancelC background 0`) and the argument `background`, the returned
Wrapper's context is the argument itself: it is not cancelable, and it is
not derived from the receiver's context either — so it neither is a
"derived-and-cancelable version" of the argument nor "cancels no later than
the receiver's". -/
theorem c7_counterexample :
    (w7.WithContext Ctx.background).Context = Ctx.background ∧
    Ctx.isCancelable ((w7.WithContext Ctx.background).Context) = false ∧
    Ctx.inChain w7.ctx ((w7.WithContext Ctx.background).Context) = false := by
  refine ⟨rfl, rfl, ?_⟩
  rfl

/-- **C8.** Whenever a logger is attached, every delegating member both
calls through to the unit and mirrors to the logger, in a fixed order:
`Fatal`/`Fatalf` and `Skip`/`Skipf` mirror to the logger strictly before
delegating to the unit, while `Error`/`Errorf` and `Log`/`Logf` mirror
strictly after delegating. -/
theorem c8_logger_mirror_order (w : W) (lid : Nat) (msg : String) (s : World)
    (h : w.logger = some lid) :
    (w.Error msg s).trace = s.trace ++
      [Event.tbCall TbK.errK msg, Event.logCall lid LgK.lErr msg] ∧
    (w.Errorf msg s).trace = s.trace ++
      [Event.tbCall TbK.errfK msg, Event.logCall lid LgK.lErrf msg] ∧
    (w.Fatal msg s).trace = s.trace ++
      [Event.logCall lid LgK.lErr msg, Event.tbCall TbK.fatalK msg] ∧
    (w.Fatalf msg s).trace = s.trace ++
      [Event.logCall lid LgK.lErrf msg, Event.tbCall TbK.fatalfK msg] ∧
    (w.Log msg s).trace = s.trace ++
      [Event.tbCall TbK.logK msg, Event.logCall lid LgK.lLog msg] ∧
    (w.Logf msg s).trace = s.trace ++
      [Event.tbCall TbK.logfK msg, Event.logCall lid LgK.lLogf msg] ∧
    (w.Skip msg s).trace = s.trace ++
      [Event.logCall lid LgK.lLog msg, Event.tbCall TbK.skipK msg] ∧
    (w.Skipf msg s).trace = s.trace ++
      [Event.logCall lid LgK.lLogf msg, Event.tbCall TbK.skipfK msg] := by
  refine ⟨?_, ?_, ?_, ?_, ?_, ?_, ?_, ?_⟩ <;>
    simp [W.Error, W.Errorf, W.Fatal, W.Fatalf, W.Log, W.Logf, W.Skip,
      W.Skipf, h]

/-- Witness for C8 at a concrete wrapper with logger id 7. -/
theorem c8_logger_mirror_order_witness :
    (W.Error { tb := "t", ctx := Ctx.background, logger := some 7 } "m"
        {}).trace =
      (({} : World)).trace ++
        [Event.tbCall TbK.errK "m", Event.logCall 7 LgK.lErr "m"] ∧
    (W.Errorf { tb := "t", ctx := Ctx.background, logger := some 7 } "m"
        {}).trace =
      (({} : World)).trace ++
        [Event.tbCall TbK.errfK "m", Event.logCall 7 LgK.lErrf "m"] ∧
    (W.Fatal { tb := "t", ctx := Ctx.background, logger := some 7 } "m"
        {}).trace =
      (({} : World)).trace ++
        [Event.logCall 7 LgK.lErr "m", Event.tbCall TbK.fatalK "m"] ∧
    (W.Fatalf { tb := "t", ctx := Ctx.background, logger := some 7 } "m"
        {}).trace =
      (({} : World)).trace ++
        [Event.logCall 7 LgK.lErrf "m", Event.tbCall TbK.fatalfK "m"] ∧
    (W.Log { tb := "t", ctx := Ctx.background, logger := some 7 } "m"
        {}).trace =
      (({} : World)).trace ++
        [Event.tbCall TbK.logK "m", Event.logCall 7 LgK.lLog "m"] ∧
    (W.Logf { tb := "t", ctx := Ctx.background, logger := some 7 } "m"
        {}).trace =
      (({} : World)).trace ++
        [Event.tbCall TbK.logfK "m", Event.logCall 7 LgK.lLogf "m"] ∧
    (W.Skip { tb := "t", ctx := Ctx.background, logger := some 7 } "m"
        {}).trace =
      (({} : World)).trace ++
        [Event.logCall 7 LgK.lLog "m", Event.tbCall TbK.skipK "m"] ∧
    (W.Skipf { tb := "t", ctx := Ctx.background, logger := some 7 } "m"
        {}).trace =
      (({} : World)).trace ++
        [Event.logCall 7 LgK.lLogf "m", Event.tbCall TbK.skipfK "m"] :=
  c8_logger_mirror_order
    { tb := "t", ctx := Ctx.background, logger := some 7 } 7 "m" {} rfl

/-- **C9.** The timeout middleware derives a deadline-bound context
(`timeoutC ctx d id` with a fresh cancel id) from the context it receives
and releases the derivation's cancel on every exit path of the wrapped
function: whatever `next` does — including setting the panic flag — the
resulting trace ends with `cancelEv id`, and the panic propagates
unchanged. -/
theorem c9_timeout_releases_cancel (d : Nat) (next : RunFuncP) (ctx : Ctx)
    (t : W) (s : World) :
    (WithTimeoutP d next ctx t s).1.trace =
      (next (Ctx.timeoutC ctx d s.nextId) t
        { s with nextId := s.nextId + 1 }).1.trace
        ++ [Event.cancelEv s.nextId] ∧
    Event.cancelEv s.nextId ∈ (WithTimeoutP d next ctx t s).1.trace ∧
    (WithTimeoutP d next ctx t s).2 =
      (next (Ctx.timeoutC ctx d s.nextId) t
        { s with nextId := s.nextId + 1 }).2 := by
  refine ⟨rfl, ?_, rfl⟩
  show Event.cancelEv s.nextId ∈ (emit (Event.cancelEv s.nextId) _).trace
  simp

/-- The dispatch loop with its two skip conditions equals the plain loop over
exactly the methods passing `methodOK`. -/
lemma dispatch_fold_filter (pre : String) (t : W) :
    ∀ (c : List Method) (st : World),
    c.foldl (fun st m =>
      if pre.isPrefixOf m.name then
        if m.numIn == 3 && (m.in1IsCtx && m.in2IsW) then
          t.Run m.name m.body st
        else st
      else st) st
    = (c.filter (methodOK pre)).foldl
        (fun st m => t.Run m.name m.body st) st := by
  intro c
  induction c with
  | nil => intro st; rfl
  | cons m rest ih =>
    intro st
    simp only [List.foldl_cons, List.filter_cons]
    by_cases h1 : pre.isPrefixOf m.name
    · by_cases h2 : (m.numIn == 3 && (m.in1IsCtx && m.in2IsW)) = true
      · simp only [methodOK, h1, h2, if_true, Bool.true_and, List.foldl_cons]
        exact ih _
      · simp only [methodOK, h1, h2, Bool.true_and, if_true,
          Bool.false_eq_true, if_false]
        exact ih _
    · have h1' : pre.isPrefixOf m.name = false := by
        simpa using h1
      simp only [methodOK, h1', Bool.false_and, if_false,
        Bool.false_eq_true]
      exact ih _

/-- `runMethods` on a single container equals the middleware-wrapped loop
over exactly the `methodOK`-filtered methods. -/
lemma runMethods_filter_eq (w : W) (c : Container) (pre : String)
    (s : World) :
    w.runMethods [c] pre s =
      (w.wrapWithMiddleware (fun _ctx t st =>
        (c.filter (methodOK pre)).foldl
          (fun st m => t.Run m.name m.body st) st)) w.ctx w s := by
  have hf : (fun (_ctx : Ctx) (t : W) (st : World) =>
        ([c] : List Container).foldl (fun st cc =>
          cc.foldl (fun st m =>
            if pre.isPrefixOf m.name then
              if m.numIn == 3 && (m.in1IsCtx && m.in2IsW) then
                t.Run m.name m.body st
              else st
            else st) st) st)
      = (fun (_ctx : Ctx) (t : W) (st : World) =>
        (c.filter (methodOK pre)).foldl
          (fun st m => t.Run m.name m.body st) st) := by
    funext _ctx t st
    simp only [List.foldl_cons, List.foldl_nil]
    exact dispatch_fold_filter pre t c st
  simp only [W.runMethods]
  rw [hf]

/-- **C6.** Suite dispatch invokes exactly those methods whose name starts
with the prefix and whose signature beyond the receiver is exactly
`(context, Wrapper)` — each as a sub-unit named after the method via `Run` —
and silently skips every other method: `runMethods` on a container equals
the same middleware-wrapped loop over precisely the `methodOK`-filtered
methods, with nothing (and in particular no error) contributed by the
skipped ones. -/
theorem c6_dispatch_exactly_matching (w : W) (c : Container) (pre : String)
    (s : World) :
    w.runMethods [c] pre s =
      (w.wrapWithMiddleware (fun _ctx t st =>
        (c.filter (methodOK pre)).foldl
          (fun st m => t.Run m.name m.body st) st)) w.ctx w s :=
  runMethods_filter_eq w c pre s

/-! ### Counting middleware executions (C10) -/

lemma count_beforeE_map (l : List Nat) (i : Nat) :
    (l.map Event.beforeE).count (Event.beforeE i) = l.count i := by
  induction l with
  | nil => rfl
  | cons j rest ih =>
    simp [List.count_cons, ih, Event.beforeE.injEq]

lemma count_afterE_map (l : List Nat) (i : Nat) :
    (l.map Event.afterE).count (Event.afterE i) = l.count i := by
  induction l with
  | nil => rfl
  | cons j rest ih =>
    simp [List.count_cons, ih, Event.afterE.injEq]

lemma count_beforeE_in_afters (l : List Nat) (i : Nat) :
    (l.map Event.afterE).count (Event.beforeE i) = 0 := by
  rw [List.count_eq_zero]
  simp

lemma count_afterE_in_befores (l : List Nat) (i : Nat) :
    (l.map Event.beforeE).count (Event.afterE i) = 0 := by
  rw [List.count_eq_zero]
  simp

/-- Count of probe events contributed by one `Run` over a probe chain. -/
lemma run_probe_count (w : W) (l : List Nat)
    (hw : w.middleware = l.map MW.probe) (name tag : String) (s : World)
    (hs : s.cleanups = []) (i : Nat) :
    (w.Run name (markBody tag) s).cleanups = [] ∧
    (w.Run name (markBody tag) s).trace.count (Event.beforeE i) =
      s.trace.count (Event.beforeE i) + l.count i ∧
    (w.Run name (markBody tag) s).trace.count (Event.afterE i) =
      s.trace.count (Event.afterE i) + l.count i := by
  obtain ⟨htr, hcl⟩ := run_probe_trace w l hw name tag s hs
  refine ⟨hcl, ?_, ?_⟩ <;> rw [htr]
  · simp [List.count_append, count_beforeE_map, count_beforeE_in_afters,
      List.count_cons]
  · simp [List.count_append, count_afterE_map, count_afterE_in_befores,
      List.count_cons, List.count_reverse]

/-- Count of probe events contributed by a loop of `Run`s over a probe
chain, one per method, each with a marking body. -/
lemma runfold_probe_count (l : List Nat) (t : W)
    (ht : t.middleware = l.map MW.probe) (i : Nat) :
    ∀ (L : List Method), (∀ m ∈ L, m.body = markBody m.name) →
    ∀ (st : World), st.cleanups = [] →
    (L.foldl (fun st m => t.Run m.name m.body st) st).cleanups = [] ∧
    (L.foldl (fun st m => t.Run m.name m.body st) st).trace.count
        (Event.beforeE i) =
      st.trace.count (Event.beforeE i) + l.count i * L.length ∧
    (L.foldl (fun st m => t.Run m.name m.body st) st).trace.count
        (Event.afterE i) =
      st.trace.count (Event.afterE i) + l.count i * L.length := by
  intro L
  induction L with
  | nil =>
    intro _ st hst
    exact ⟨hst, by simp, by simp⟩
  | cons m rest ih =>
    intro hL st hst
    simp only [List.foldl_cons, List.length_cons]
    have hm : m.body = markBody m.name := hL m (by simp)
    rw [hm]
    obtain ⟨hcl, hb, ha⟩ := run_probe_count t l ht m.name m.name st hst i
    obtain ⟨hcl', hb', ha'⟩ :=
      ih (fun m' hm' => hL m' (by simp [hm'])) _ hcl
    refine ⟨hcl', ?_, ?_⟩
    · rw [hb', hb]; ring
    · rw [ha', ha]; ring

/-- **C10.** `RunTests`/`RunBenchmarks` (via `runMethods`) apply the
Wrapper's full middleware chain around the entire dispatch loop, in
addition to the chain `Run` applies around each matching method: for a
container with `k` matching methods, each probe middleware's before and
after code executes `k + 1` times — its multiplicity in the chain times
`k + 1` occurrences in the trace — not `k` times. -/
theorem c10_container_level_chain (w : W) (l : List Nat)
    (hw : w.middleware = l.map MW.probe) (c : Container)
    (hc : ∀ m ∈ c, m.body = markBody m.name) (pre : String) (s : World)
    (hs : s.cleanups = []) (i : Nat) :
    (w.runMethods [c] pre s).trace.count (Event.beforeE i) =
      s.trace.count (Event.beforeE i)
        + l.count i * ((c.filter (methodOK pre)).length + 1) ∧
    (w.runMethods [c] pre s).trace.count (Event.afterE i) =
      s.trace.count (Event.afterE i)
        + l.count i * ((c.filter (methodOK pre)).length + 1) := by
  rw [runMethods_filter_eq, wrap_probe_formula w l hw]
  have ht' : (w.WithContext w.ctx).middleware = l.map MW.probe := hw
  have hX : (emitAll (l.map Event.beforeE) s).cleanups = [] := by simp [hs]
  obtain ⟨hcl, hb, ha⟩ :=
    runfold_probe_count l (w.WithContext w.ctx) ht' i
      (c.filter (methodOK pre))
      (fun m hm => hc m (List.mem_of_mem_filter hm))
      (emitAll (l.map Event.beforeE) s) hX
  constructor
  · simp only [emitAll_trace, List.count_append]
    rw [hb]
    simp only [emitAll_trace, List.count_append, count_beforeE_map,
      count_beforeE_in_afters]
    ring
  · simp only [emitAll_trace, List.count_append]
    rw [ha]
    simp only [emitAll_trace, List.count_append, count_afterE_map,
      count_afterE_in_befores, List.count_reverse]
    ring

/-- Witness for C10: one probe, a container with two matching methods and
one helper — the probe's before code runs 2 + 1 = 3 times. -/
theorem c10_container_level_chain_witness :
    (w10.runMethods [cont10] "Test" {}).trace.count (Event.beforeE 0) =
      (({} : World)).trace.count (Event.beforeE 0)
        + ([0] : List Nat).count 0
          * ((cont10.filter (methodOK "Test")).length + 1) ∧
    (w10.runMethods [cont10] "Test" {}).trace.count (Event.afterE 0) =
      (({} : World)).trace.count (Event.afterE 0)
        + ([0] : List Nat).count 0
          * ((cont10.filter (methodOK "Test")).length + 1) :=
  c10_container_level_chain w10 [0] rfl cont10
    (by
      intro m hm
      simp only [cont10, List.mem_cons, List.not_mem_nil, or_false] at hm
      rcases hm with rfl | rfl | rfl <;> rfl)
    "Test" {} rfl 0

end Testctx

namespace Testctx.SliceModel

/-- **C2.** `Using` on two siblings of one parent whose middleware slice has
spare capacity (reachable in Go: a caller-made slice passed through the
variadic parameter, or a slice left with spare capacity by `append`
growth): the parent's own visible middleware list survives both calls, and
each `Using` returns the appended list — but constructing the second
sibling overwrites, through the shared backing array, the middleware the
first sibling had appended: after `b := w.Using(probe 2)`, sibling
`a := w.Using(probe 1)` reads `[probe 0, probe 2]`, no longer the
`[probe 0, probe 1]` it was constructed with. -/
theorem c2_append_aliasing_bug :
    heap1.read wBase.middleware = [MW.probe 0] ∧
    heap2.read wBase.middleware = [MW.probe 0] ∧
    heap1.read sibA.middleware = [MW.probe 0, MW.probe 1] ∧
    heap2.read sibB.middleware = [MW.probe 0, MW.probe 2] ∧
    heap2.read sibA.middleware = [MW.probe 0, MW.probe 2] ∧
    heap2.read sibA.middleware ≠ heap1.read sibA.middleware := by
  refine ⟨rfl, rfl, rfl, rfl, rfl, ?_⟩
  decide

end Testctx.SliceModel
